import Mathlib

/-!
# geoid: camera-resolution negotiation and lifecycle handling

A shallow embedding of `src/jni/geoid.cpp`:

* `calc_optimal_camera_resolution` with its token scan over the NUL-terminated
  device string, the `sscanf("%dx%d")` call and the `float min_diff` comparison;
* `engine_handle_input`, `engine_handle_cmd`, `engine_term_display` and the event
  loop of `android_main`, with a trace of the calls made to the capture device
  and to EGL;
* the `record` operation of the Frame-Rate Estimator, which the program lacks, from
  the specification.
-/

namespace Geoid

/-! ## Machine arithmetic -/

/-- The wrapped (two-complement) value of a 32-bit `int`: the result the `sub` instruction of
the target leaves in a register. C leaves signed overflow undefined; the results about
well-formed input below stay inside the range where this is the identity. -/
def wrap32 (n : Int) : Int := (n + 2147483648) % 4294967296 - 2147483648

/-- The constant `FLT_MAX` of `float.h`, `(2 - 2^-23) * 2^127`, an integer. -/
def FLT_MAX : Int := 340282346638528859811704183484516925440

/-- Distance between neighbouring binary32 values at magnitude `a < 2^32`:
a `float` keeps 24 significant bits. -/
def float_ulp (a : Nat) : Nat :=
  if a < 16777216 then 1
  else if a < 33554432 then 2
  else if a < 67108864 then 4
  else if a < 134217728 then 8
  else if a < 268435456 then 16
  else if a < 536870912 then 32
  else if a < 1073741824 then 64
  else if a < 2147483648 then 128
  else 256

/-- Magnitude of `(float) a` for `a < 2^32`, rounded to nearest, ties to even. -/
def float_round (a : Nat) : Nat :=
  let u := float_ulp a
  let q := a / u
  let r := a % u
  if u < 2 * r ∨ (2 * r = u ∧ q % 2 = 1) then (q + 1) * u else q * u

/-- The implicit conversion `int -> float` of a 32-bit `int`, as the (integer)
value of the resulting `float`. -/
def int_to_float (n : Int) : Int :=
  if n < 0 then -((float_round n.natAbs : Nat) : Int) else ((float_round n.natAbs : Nat) : Int)

/-! ## `sscanf(input, "%dx%d", &tmp_width, &tmp_height)` -/

/-- The C locale `isspace`. -/
def isspace (c : Char) : Bool :=
  c = ' ' || c = '\t' || c = '\n' || c = '\x0b' || c = '\x0c' || c = '\r'

/-- Leading white space is skipped by `%d`. -/
def skipSpace : List Char → List Char
  | [] => []
  | c :: cs => if isspace c then skipSpace cs else c :: cs

/-- The longest run of decimal digits, accumulated in base ten, and what follows. -/
def readDigits : List Char → Nat → Nat × List Char
  | [], acc => (acc, [])
  | c :: cs, acc =>
    if c.isDigit then readDigits cs (10 * acc + (c.toNat - 48)) else (acc, c :: cs)

/-- The digits of a `%d` after the optional sign: at least one digit is needed. -/
def scan_digits (neg : Bool) : List Char → Option (Int × List Char)
  | [] => none
  | c :: cs =>
    if c.isDigit then
      let r := readDigits (c :: cs) 0
      some (wrap32 (if neg then -(r.1 : Int) else (r.1 : Int)), r.2)
    else none

/-- One `%d` directive: white space, optional sign, digits. `none` is a matching
failure; otherwise the converted `int` and the unread input. -/
def scan_d (input : List Char) : Option (Int × List Char) :=
  match skipSpace input with
  | [] => none
  | c :: cs =>
    if c = '-' then scan_digits true cs
    else if c = '+' then scan_digits false cs
    else scan_digits false (c :: cs)

/-- The call `sscanf(input, "%dx%d", &tmp_width, &tmp_height)`: `tmp` holds what the
two variables contain before the call, and a variable whose directive is not
reached keeps that content. The return value of `sscanf` is not looked at by the
caller. -/
def sscanf_dxd (input : List Char) (tmp : Int × Int) : Int × Int :=
  match scan_d input with
  | none => tmp
  | some (w, rest) =>
    match rest with
    | [] => (w, tmp.2)
    | c :: rest1 =>
      if c = 'x' then
        match scan_d rest1 with
        | none => (w, tmp.2)
        | some (h, _) => (w, h)
      else (w, tmp.2)

/-! ## `calc_optimal_camera_resolution` -/

/-- The type `cv::Size`. -/
structure Size where
  width : Int
  height : Int
deriving DecidableEq, Repr

/-- Ways the model of a run can stop without a result. -/
inductive Fault where
  | outOfBounds
  | outOfFuel
  | nullDeref
deriving DecidableEq, Repr

deriving instance DecidableEq for Except

/-- The read `supported[i]` of the NUL-terminated array whose characters before
the terminator are `supported`: position `supported.length` holds the NUL, any
position after it is outside the string. -/
def charAt (supported : List Char) (i : Nat) : Except Fault Char :=
  if i ≤ supported.length then .ok (supported.getD i '\x00') else .error .outOfBounds

/-- The inner loop `while ((supported[idx] != 0) && (supported[idx] != ',')) idx++;`,
returning the final `idx`. -/
def scanToken (supported : List Char) : Nat → Nat → Except Fault Nat
  | 0, _ => .error .outOfFuel
  | fuel + 1, idx =>
    match charAt supported idx with
    | .error f => .error f
    | .ok c => if c ≠ '\x00' ∧ c ≠ ',' then scanToken supported fuel (idx + 1) else .ok idx

/-- The local variables of `calc_optimal_camera_resolution` that live across
iterations of its do-while loop; `iterations` is a ghost counter of completed
loop bodies. `min_diff` is a `float` that only ever holds `FLT_MAX` or a converted
`int`, hence an integer. -/
structure Scan where
  frame_width : Int
  frame_height : Int
  min_diff : Int
  idx : Nat
  iterations : Nat
deriving DecidableEq, Repr

/-- The part of the loop body after the `sscanf`: the two differences and the
guarded update of the best candidate. -/
def consider (width height : Int) (st : Scan) (tmp : Int × Int) : Scan :=
  let w_diff := wrap32 (width - tmp.1)
  let h_diff := wrap32 (height - tmp.2)
  if 0 ≤ h_diff ∧ 0 ≤ w_diff then
    if int_to_float h_diff ≤ st.min_diff ∧ tmp.2 ≤ 720 then
      { st with frame_width := tmp.1, frame_height := tmp.2, min_diff := int_to_float h_diff }
    else st
  else st

/-- The do-while loop. `tmp_width` and `tmp_height` are declared in the body
without an initialiser, so `junk k` stands for whatever the two variables hold when
iteration `k` reaches the `sscanf`. -/
def scanLoop (junk : Nat → Int × Int) (supported : List Char) (width height : Int) :
    Nat → Scan → Except Fault Scan
  | 0, _ => .error .outOfFuel
  | fuel + 1, st =>
    let prev_idx := st.idx
    match scanToken supported (supported.length + 1) st.idx with
    | .error f => .error f
    | .ok idx =>
      match charAt supported prev_idx with
      | .error f => .error f
      | .ok _ =>
        let tmp := sscanf_dxd (supported.drop prev_idx) (junk st.iterations)
        let st1 := consider width height st tmp
        let st2 := { st1 with idx := idx + 1, iterations := st.iterations + 1 }
        match charAt supported (st2.idx - 1) with
        | .error f => .error f
        | .ok c => if c ≠ '\x00' then scanLoop junk supported width height fuel st2 else .ok st2

/-- The state before the loop: `frame_width = frame_height = 0`, `idx = 0`,
`min_diff = FLT_MAX`. -/
def scanInit : Scan :=
  { frame_width := 0, frame_height := 0, min_diff := FLT_MAX, idx := 0, iterations := 0 }

/-- The whole scan of `calc_optimal_camera_resolution`, with the locals it ends in. -/
def scanSupported (junk : Nat → Int × Int) (supported : List Char) (width height : Int) :
    Except Fault Scan :=
  scanLoop junk supported width height (supported.length + 1) scanInit

/-- The function `calc_optimal_camera_resolution(supported, width, height)`. -/
def calc_optimal_camera_resolution (junk : Nat → Int × Int) (supported : List Char)
    (width height : Int) : Except Fault Size :=
  match scanSupported junk supported width height with
  | .error f => .error f
  | .ok st => .ok { width := st.frame_width, height := st.frame_height }

/-! ## Well-formed device strings -/

/-- Value of a string of decimal digits. -/
def digitsVal (ds : List Char) : Nat :=
  ds.foldl (fun n c => 10 * n + (c.toNat - 48)) 0

/-- A token `"<width>x<height>"` given by its two digit strings. -/
abbrev Token := List Char × List Char

/-- A well-formed token: two non-empty strings of decimal digits whose values
fit in an `int`. -/
def wellFormedToken (t : Token) : Prop :=
  t.1 ≠ [] ∧ t.1.all Char.isDigit = true ∧ digitsVal t.1 < 2147483648 ∧
  t.2 ≠ [] ∧ t.2.all Char.isDigit = true ∧ digitsVal t.2 < 2147483648

instance (t : Token) : Decidable (wellFormedToken t) := by
  unfold wellFormedToken; infer_instance

/-- The characters of one token. -/
def renderToken (t : Token) : List Char := t.1 ++ 'x' :: t.2

/-- The comma-separated device string of a list of tokens. -/
def renderList : List Token → List Char
  | [] => []
  | [t] => renderToken t
  | t :: u :: ts => renderToken t ++ ',' :: renderList (u :: ts)

/-- The resolution a token denotes. -/
def entry (t : Token) : Size := { width := digitsVal t.1, height := digitsVal t.2 }

/-- A candidate the negotiator may choose: it fits the target and the 720 cap. -/
def qualifies (width height : Int) (e : Size) : Prop :=
  e.width ≤ width ∧ e.height ≤ height ∧ e.height ≤ 720

instance (width height : Int) (e : Size) : Decidable (qualifies width height e) := by
  unfold qualifies; infer_instance

/-! ## Lifecycle: `engine_handle_input`, `engine_handle_cmd`, `android_main` -/

/-- Calls made on the capture device and on EGL/GL, in the order they happen;
`captureRelease` is the moment the capture device is given back. -/
inductive Call where
  | captureOpen
  | captureSet (width height : Int)
  | captureRelease
  | eglDestroyContext
  | eglDestroySurface
  | eglTerminate
  | renderFrame
deriving DecidableEq, Repr

/-- What the platform answers while `APP_CMD_INIT_WINDOW` is handled. -/
structure InitEnv where
  /-- the new `app->window` with its width and height, `none` for `NULL` -/
  window : Option Size
  /-- the string behind `CV_CAP_PROP_SUPPORTED_PREVIEW_SIZES_STRING`, `none` for `NULL` -/
  name : Option (List Char)
  /-- contents of the uninitialised locals of `calc_optimal_camera_resolution` -/
  junk : Nat → Int × Int
  /-- whether `ANativeWindow_setBuffersGeometry` returned a value `>= 0` -/
  geometry_ok : Bool
  /-- whether `eglGetDisplay`, `eglCreateContext`, `eglCreateWindowSurface` gave a handle -/
  display : Bool
  context : Bool
  surface : Bool
  /-- whether `eglMakeCurrent` succeeded -/
  make_current_ok : Bool

/-- The commands of `android_native_app_glue.h` the program can receive. -/
inductive Cmd where
  | APP_CMD_INIT_WINDOW (env : InitEnv)
  | APP_CMD_TERM_WINDOW
  | APP_CMD_GAINED_FOCUS
  | APP_CMD_LOST_FOCUS
  | APP_CMD_DESTROY
  | APP_CMD_OTHER

/-- What `capture->release()` does to the device. Modelled from the spec: the classes
`cv::Ptr` and `cv::VideoCapture` are not part of the repository; the capture device
collaborator of the spec has `open(index)` and `release()`, and a capture object holds
the device from its opening to its first release. `held` tells whether the object still
holds the device; a release of an object that has given the device back does nothing. -/
def VideoCapture_release (held : Bool) : List Call :=
  if held then [Call.captureRelease] else []

/-- The end of the capture object a `cv::Ptr<cv::VideoCapture>` owns, when the pointer is
overwritten or destroyed. Modelled from the spec: `cv::Ptr` is not part of the
repository; the loop owns the capture device exclusively and the device is released when
the loop terminates (spec 4.4, step 2, and 5), so an object deleted while it holds the
device gives it back. `none` is the null pointer. -/
def Ptr_delete (capture : Option Bool) : List Call :=
  match capture with
  | none => []
  | some held => VideoCapture_release held

/-- The fields of `struct engine` the lifecycle code reads or writes, with
`app->window`; `capture` is `none` for a null `cv::Ptr`, else tells whether its object
holds the device; an EGL handle is `false` when it is `EGL_NO_DISPLAY`,
`EGL_NO_CONTEXT`, `EGL_NO_SURFACE`; `calls` is the trace of external calls. -/
structure engine where
  window : Option Size
  capture : Option Bool
  hasFocus : Bool
  grabFeatures : Bool
  trained : Bool
  display : Bool
  context : Bool
  surface : Bool
  calls : List Call

/-- The function `engine_init_display`: the handles are stored only when
`eglMakeCurrent` succeeds. -/
def engine_init_display (e : engine) (env : InitEnv) : engine :=
  if env.make_current_ok then
    { e with display := env.display, context := env.context, surface := env.surface }
  else e

/-- The function `engine_term_display`. -/
def engine_term_display (e : engine) : engine :=
  let calls :=
    if e.display then
      e.calls ++ (if e.context then [Call.eglDestroyContext] else [])
        ++ (if e.surface then [Call.eglDestroySurface] else []) ++ [Call.eglTerminate]
    else e.calls
  { e with hasFocus := false, display := false, context := false, surface := false,
           calls := calls }

/-- The function `engine_draw_frame`: nothing without a window, else `renderFrame`. -/
def engine_draw_frame (e : engine) : engine :=
  match e.window with
  | none => e
  | some _ => { e with calls := e.calls ++ [Call.renderFrame] }

/-- The function `engine_handle_input`; `motion` tells whether the event type is
`AINPUT_EVENT_TYPE_MOTION`. -/
def engine_handle_input (e : engine) (motion : Bool) : engine × Int :=
  if motion then ({ e with grabFeatures := true }, 1) else (e, 0)

/-- The local `camera_resolution` of the `APP_CMD_INIT_WINDOW` case. -/
def init_window_camera_resolution (env : InitEnv) (view : Size) : Except Fault Size :=
  match env.name with
  | some name => calc_optimal_camera_resolution env.junk name 640 480
  | none => .ok view

/-- The function `engine_handle_cmd`. -/
def engine_handle_cmd (e : engine) : Cmd → Except Fault engine
  | .APP_CMD_INIT_WINDOW env =>
    match e.window with
    | none => .ok e
    | some view =>
      let e1 := { e with capture := some true,
                         calls := e.calls ++ [Call.captureOpen] ++ Ptr_delete e.capture }
      match init_window_camera_resolution env view with
      | .error f => .error f
      | .ok camera_resolution =>
        let e2 :=
          if camera_resolution.width ≠ 0 ∧ camera_resolution.height ≠ 0 then
            { e1 with calls := e1.calls ++
                [Call.captureSet camera_resolution.width camera_resolution.height] }
          else e1
        if env.geometry_ok then .ok (engine_init_display e2 env) else .ok e2
  | .APP_CMD_GAINED_FOCUS => .ok { e with hasFocus := true }
  | .APP_CMD_LOST_FOCUS => .ok { e with hasFocus := false }
  | .APP_CMD_TERM_WINDOW =>
    let e1 := engine_term_display e
    match e1.capture with
    | none => .error .nullDeref
    | some held =>
      .ok { e1 with capture := some false, calls := e1.calls ++ VideoCapture_release held }
  | .APP_CMD_DESTROY => .ok e
  | .APP_CMD_OTHER => .ok e

/-- An event the looper hands to `source->process`. -/
inductive Event where
  | cmd (c : Cmd)
  | input (motion : Bool)

/-- The call `source->process(app, source)`: the glue stores the new window before
`APP_CMD_INIT_WINDOW` reaches `engine_handle_cmd` and clears `app->window` after
`APP_CMD_TERM_WINDOW`. -/
def process (e : engine) : Event → Except Fault engine
  | .input motion => .ok (engine_handle_input e motion).1
  | .cmd (.APP_CMD_INIT_WINDOW env) =>
    engine_handle_cmd { e with window := env.window } (.APP_CMD_INIT_WINDOW env)
  | .cmd .APP_CMD_TERM_WINDOW =>
    match engine_handle_cmd e .APP_CMD_TERM_WINDOW with
    | .error f => .error f
    | .ok e1 => .ok { e1 with window := none }
  | .cmd c => engine_handle_cmd e c

/-- Whether the glue has set `app->destroyRequested` while processing the event. -/
def destroyRequested : Event → Bool
  | .cmd .APP_CMD_DESTROY => true
  | _ => false

/-- The end of the lifetime of the local `engine` of `android_main` at its `return`:
the member `capture` is destroyed. -/
def engine_destructor (e : engine) : engine :=
  { e with capture := none, calls := e.calls ++ Ptr_delete e.capture }

/-- The inner `while` of `android_main` over the events the looper delivers before
it comes back empty; the flag tells whether `android_main` has returned. On a destroy
request the function calls `engine_term_display` and returns, which ends the lifetime
of the local `engine`. -/
def poll_events (e : engine) : List Event → Except Fault (engine × Bool)
  | [] => .ok (e, false)
  | ev :: evs =>
    match process e ev with
    | .error f => .error f
    | .ok e1 =>
      if destroyRequested ev then .ok (engine_destructor (engine_term_display e1), true)
      else poll_events e1 evs

/-- The state after `memset(&engine, 0, sizeof(engine))` and the two assignments
`engine.grabFeatures = false; engine.trained = false;`. -/
def engine_zero : engine :=
  { window := none, capture := none, hasFocus := false, grabFeatures := false,
    trained := false, display := false, context := false, surface := false, calls := [] }

/-- The outer `while (1)` of `android_main`: one list of events per iteration, then
`engine_draw_frame`; the rest of the body is commented out in the source. -/
def main_loop (e : engine) : List (List Event) → Except Fault engine
  | [] => .ok e
  | evs :: rest =>
    match poll_events e evs with
    | .error f => .error f
    | .ok (e1, true) => .ok e1
    | .ok (e1, false) => main_loop (engine_draw_frame e1) rest

/-- The function `android_main` run on the events of each loop iteration. -/
def android_main (iterations : List (List Event)) : Except Fault engine :=
  main_loop engine_zero iterations

/-- Number of times the capture device was given back in a trace. -/
def captureReleases (calls : List Call) : Nat := calls.count Call.captureRelease

/-- Number of `eglDestroyContext` calls in a trace. -/
def contextTeardowns (calls : List Call) : Nat := calls.count Call.eglDestroyContext

/-- The resolutions set on the capture device in a trace. -/
def configured : List Call → List Size
  | [] => []
  | Call.captureSet w h :: cs => { width := w, height := h } :: configured cs
  | _ :: cs => configured cs

/-! ## Frame-Rate Estimator -/

/-- Modelled from the spec: the operation `record(timestamp)` of the Frame-Rate Estimator
is missing from the program. `android_main` declares `time_queue` and never uses it, the
lines that would push and pop it being commented out. Spec 4.2: append timestamp; if
the window size exceeds 25, evict the oldest entry. The oldest entry is the head of the
list. -/
def record (window : List Int) (timestamp : Int) : List Int :=
  let appended := window ++ [timestamp]
  if 25 < appended.length then appended.tail else appended

/-- Modelled from the spec: the TimestampWindow after the given timestamps have been
recorded one after the other, from the empty window. -/
def recordAll (stamps : List Int) : List Int := stamps.foldl record []

/-! ## Auxiliary definitions -/

/-- What may follow a token: the end of the string or a separator. -/
def stopsAt : List Char → Prop
  | [] => True
  | c :: _ => c = '\x00' ∨ c = ','

/-- The state after one loop body that read the token `tok` at offset `pre.length`. -/
def afterToken (junk : Nat → Int × Int) (width height : Int) (pre tok rest : List Char)
    (st : Scan) : Scan :=
  { consider width height st (sscanf_dxd (tok ++ rest) (junk st.iterations)) with
    idx := pre.length + tok.length + 1, iterations := st.iterations + 1 }

/-- What follows a number: the end of the input or a character that is no digit. -/
def noDigitAhead : List Char → Prop
  | [] => True
  | c :: _ => c.isDigit = false

/-- The two integers `sscanf` stores for a token. -/
def tmpOf (t : Token) : Int × Int := ((digitsVal t.1 : Int), (digitsVal t.2 : Int))

/-- A scan state moved to another position of the string. -/
def setPos (st : Scan) (i k : Nat) : Scan := { st with idx := i, iterations := k }

/-- The test `qualifies` on the pair of integers of a candidate. -/
def fits (width height : Int) (e : Int × Int) : Prop :=
  e.1 ≤ width ∧ e.2 ≤ height ∧ e.2 ≤ 720

/-- The values a well-formed token can denote. -/
def inRange (e : Int × Int) : Prop :=
  0 ≤ e.1 ∧ e.1 < 2147483648 ∧ 0 ≤ e.2 ∧ e.2 < 2147483648

/-- What the locals hold after the candidates `es`: nothing chosen yet, or a
candidate that fits and whose height no fitting candidate exceeds. -/
def Chosen (width height : Int) (es : List (Int × Int)) (st : Scan) : Prop :=
  (st.min_diff = FLT_MAX ∧ st.frame_width = 0 ∧ st.frame_height = 0 ∧
      ∀ e ∈ es, ¬ fits width height e) ∨
  (∃ e ∈ es, fits width height e ∧ st.frame_width = e.1 ∧ st.frame_height = e.2 ∧
      st.min_diff = height - e.2 ∧ ∀ d ∈ es, fits width height d → d.2 ≤ e.2)

/-- Whether the event is `APP_CMD_INIT_WINDOW`. -/
def isInitWindow : Event → Bool
  | .cmd (.APP_CMD_INIT_WINDOW _) => true
  | _ => false

/-- An event that leaves the capture device and the display alone: input, focus
gained, focus lost, and commands the handler ignores. -/
def isQuiet : Event → Bool
  | .input _ => true
  | .cmd .APP_CMD_GAINED_FOCUS => true
  | .cmd .APP_CMD_LOST_FOCUS => true
  | .cmd .APP_CMD_OTHER => true
  | _ => false

/-- A window-created event: `APP_CMD_INIT_WINDOW` arrives with a window, the buffer
geometry is accepted and `engine_init_display` has made a display and a context
current. -/
def windowCreated (env : InitEnv) (view : Size) : Prop :=
  env.window = some view ∧ env.geometry_ok = true ∧ env.make_current_ok = true ∧
  env.display = true ∧ env.context = true

/-- The state before any window was created: no window, no capture object, no display,
no call made. -/
def Pristine (e : engine) : Prop :=
  e.window = none ∧ e.capture = none ∧ e.display = false ∧ e.context = false ∧
  e.surface = false ∧ e.calls = []

/-- Context teardowns made so far plus the one still owed for a live context. -/
def owedTeardowns (e : engine) : Nat :=
  contextTeardowns e.calls + (if e.display && e.context then 1 else 0)

/-- Device releases made so far plus the one still owed by a capture that holds the
device. -/
def owedReleases (e : engine) : Nat :=
  captureReleases e.calls + (if e.capture = some true then 1 else 0)

/-- What the locals hold after the candidates `es`, the height differences taken as
the code compares them, converted to `float`: nothing chosen yet, or a candidate that
fits and whose converted difference no fitting candidate undercuts. -/
def ChosenFloat (width height : Int) (es : List (Int × Int)) (st : Scan) : Prop :=
  (st.min_diff = FLT_MAX ∧ st.frame_width = 0 ∧ st.frame_height = 0 ∧
      ∀ e ∈ es, ¬ fits width height e) ∨
  (∃ e ∈ es, fits width height e ∧ st.frame_width = e.1 ∧ st.frame_height = e.2 ∧
      st.min_diff = int_to_float (height - e.2) ∧
      ∀ d ∈ es, fits width height d →
        int_to_float (height - e.2) ≤ int_to_float (height - d.2))

/-- The events of all loop iterations, in order. -/
def allEvents : List (List Event) → List Event
  | [] => []
  | evs :: rest => evs ++ allEvents rest

/-- Uninitialised locals that hold the given pair in every iteration. -/
def junkOf (w h : Int) : Nat → Int × Int := fun _ => (w, h)

/-- The tokens of `320x240,640x480,1280x720,1920x1080`. -/
def supportedExample : List Token :=
  [(("320").toList, ("240").toList), (("640").toList, ("480").toList),
   (("1280").toList, ("720").toList), (("1920").toList, ("1080").toList)]

/-- A platform that answers `APP_CMD_INIT_WINDOW` with a 1280x720 window, the device
string `320x240,1280x720` and working EGL calls. -/
def envExample : InitEnv :=
  { window := some { width := 1280, height := 720 },
    name := some ("320x240,1280x720").toList,
    junk := junkOf 0 0,
    geometry_ok := true, display := true, context := true, surface := true,
    make_current_ok := true }

/-- The resolutions set on the capture device by a run of the handler. -/
def configuredBy (r : Except Fault engine) : Option (List Size) :=
  match r with
  | .ok e => some (configured e.calls)
  | .error _ => none

/-- The pair `(grabFeatures, trained)` a run ends with. -/
def pipelineFlags (r : Except Fault engine) : Option (Bool × Bool) :=
  match r with
  | .ok e => some (e.grabFeatures, e.trained)
  | .error _ => none

/-! ## The token scan -/

theorem getD_append_cons (pre : List Char) (c : Char) (cs : List Char) :
    (pre ++ c :: cs).getD pre.length '\x00' = c := by
  induction pre with
  | nil => rfl
  | cons a pre ih => simpa using ih

theorem charAt_append_cons (pre : List Char) (c : Char) (cs : List Char) :
    charAt (pre ++ c :: cs) pre.length = .ok c := by
  unfold charAt
  rw [if_pos (by simp), getD_append_cons]

theorem charAt_length (s : List Char) : charAt s s.length = .ok '\x00' := by
  simp [charAt, List.getD_eq_getElem?_getD]

theorem scanToken_append (tok : List Char) :
    ∀ (pre rest : List Char) (fuel : Nat),
      (∀ c ∈ tok, c ≠ '\x00' ∧ c ≠ ',') → stopsAt rest → tok.length < fuel →
      scanToken (pre ++ tok ++ rest) fuel pre.length = .ok (pre.length + tok.length) := by
  induction tok with
  | nil =>
    intro pre rest fuel _ hrest hfuel
    obtain ⟨f, rfl⟩ : ∃ f, fuel = f + 1 := ⟨fuel - 1, by simp at hfuel; omega⟩
    cases rest with
    | nil => simp [scanToken, charAt_length]
    | cons c r =>
      simp only [List.append_nil, scanToken, charAt_append_cons]
      simp only [stopsAt] at hrest
      rcases hrest with h | h <;> simp [h]
  | cons t tok ih =>
    intro pre rest fuel htok hrest hfuel
    obtain ⟨f, rfl⟩ : ∃ f, fuel = f + 1 := ⟨fuel - 1, by simp at hfuel; omega⟩
    have ht := htok t (by simp)
    have h1 : pre ++ t :: tok ++ rest = pre ++ t :: (tok ++ rest) := by simp
    have h2 : pre ++ t :: tok ++ rest = (pre ++ [t]) ++ tok ++ rest := by simp
    rw [scanToken, h1, charAt_append_cons]
    simp only [ne_eq, ht.1, not_false_eq_true, ht.2, and_self, ↓reduceIte]
    rw [← h1, h2]
    have := ih (pre ++ [t]) rest f (fun c hc => htok c (by simp [hc])) hrest
      (by simp at hfuel; omega)
    simp only [List.length_append, List.length_singleton] at this
    rw [this]
    simp only [List.length_cons]
    congr 1
    omega

theorem charAt_of_le (s : List Char) (i : Nat) (h : i ≤ s.length) :
    charAt s i = .ok (s.getD i '\x00') := by
  simp [charAt, h]

theorem afterToken_idx (junk : Nat → Int × Int) (width height : Int)
    (pre tok rest : List Char) (st : Scan) :
    (afterToken junk width height pre tok rest st).idx = pre.length + tok.length + 1 := rfl

theorem afterToken_iterations (junk : Nat → Int × Int) (width height : Int)
    (pre tok rest : List Char) (st : Scan) :
    (afterToken junk width height pre tok rest st).iterations = st.iterations + 1 := rfl

theorem scanLoop_step (junk : Nat → Int × Int) (width height : Int)
    (pre tok rest : List Char) (fuel : Nat) (st : Scan)
    (htok : ∀ c ∈ tok, c ≠ '\x00' ∧ c ≠ ',') (hrest : stopsAt rest)
    (hidx : st.idx = pre.length) :
    scanLoop junk (pre ++ tok ++ rest) width height (fuel + 1) st =
      match rest with
      | [] => .ok (afterToken junk width height pre tok rest st)
      | c :: _ =>
        if c ≠ '\x00' then
          scanLoop junk (pre ++ tok ++ rest) width height fuel
            (afterToken junk width height pre tok rest st)
        else .ok (afterToken junk width height pre tok rest st) := by
  rw [scanLoop]
  simp only [hidx]
  rw [scanToken_append tok pre rest _ htok hrest (by simp; omega)]
  rw [charAt_of_le _ _ (by simp)]
  have hdrop : (pre ++ tok ++ rest).drop pre.length = tok ++ rest := by
    rw [List.append_assoc, List.drop_left]
  simp only [hdrop, Nat.add_sub_cancel]
  cases rest with
  | nil =>
    have : pre.length + tok.length = (pre ++ tok ++ []).length := by simp
    rw [this, charAt_length]
    simp [afterToken, consider]
  | cons c r =>
    have : pre.length + tok.length = (pre ++ tok).length := by simp
    rw [this, charAt_append_cons]
    simp only [List.length_append, afterToken]

theorem split_token (suf : List Char) :
    ∃ tok rest, suf = tok ++ rest ∧ (∀ c ∈ tok, c ≠ '\x00' ∧ c ≠ ',') ∧ stopsAt rest := by
  induction suf with
  | nil => exact ⟨[], [], rfl, by simp, trivial⟩
  | cons c cs ih =>
    by_cases hc : c = '\x00' ∨ c = ','
    · exact ⟨[], c :: cs, rfl, by simp, hc⟩
    · obtain ⟨tok, rest, h1, h2, h3⟩ := ih
      refine ⟨c :: tok, rest, by simp [h1], ?_, h3⟩
      intro d hd
      rcases List.mem_cons.1 hd with rfl | hd
      · exact ⟨fun h => hc (Or.inl h), fun h => hc (Or.inr h)⟩
      · exact h2 d hd

theorem scanLoop_total (junk : Nat → Int × Int) (width height : Int) :
    ∀ (n : Nat) (suf : List Char), suf.length ≤ n →
      ∀ (pre : List Char) (st : Scan) (fuel : Nat), st.idx = pre.length →
        suf.count ',' < fuel →
        ∃ r, scanLoop junk (pre ++ suf) width height fuel st = .ok r ∧
          ((∀ c ∈ suf, c ≠ '\x00') →
            r.iterations = st.iterations + suf.count ',' + 1 ∧
            r.idx = (pre ++ suf).length + 1) := by
  intro n
  induction n with
  | zero =>
    intro suf hlen pre st fuel hidx hfuel
    have hs : suf = [] := List.length_eq_zero.1 (Nat.le_zero.1 hlen)
    subst hs
    obtain ⟨f, rfl⟩ : ∃ f, fuel = f + 1 := ⟨fuel - 1, by omega⟩
    have := scanLoop_step junk width height pre [] [] f st (by simp) trivial hidx
    simp only [List.append_nil] at this
    refine ⟨afterToken junk width height pre [] [] st, by rw [List.append_nil]; exact this,
      fun _ => ?_⟩
    rw [afterToken_idx, afterToken_iterations]
    simp
  | succ n ih =>
    intro suf hlen pre st fuel hidx hfuel
    obtain ⟨f, rfl⟩ : ∃ f, fuel = f + 1 := ⟨fuel - 1, by omega⟩
    obtain ⟨tok, rest, rfl, htok, hrest⟩ := split_token suf
    have hcnt : tok.count ',' = 0 :=
      List.count_eq_zero.2 (fun h => (htok _ h).2 rfl)
    have hstep := scanLoop_step junk width height pre tok rest f st htok hrest hidx
    rw [← List.append_assoc]
    cases rest with
    | nil =>
      simp only at hstep
      refine ⟨_, hstep, fun _ => ?_⟩
      rw [afterToken_idx, afterToken_iterations]
      simp [hcnt]
    | cons c r =>
      simp only at hstep
      by_cases hc : c = '\x00'
      · subst hc
        simp only [ne_eq, not_true_eq_false, ↓reduceIte] at hstep
        refine ⟨_, hstep, fun hnul => ?_⟩
        exact absurd rfl (hnul _ (by simp))
      · have hcomma : c = ',' := by
          rcases hrest with h | h
          · exact absurd h hc
          · exact h
        subst hcomma
        simp only [ne_eq, hc, not_false_eq_true, ↓reduceIte] at hstep
        have hlen2 : r.length ≤ n := by
          simp only [List.length_append, List.length_cons] at hlen; omega
        have hfuel2 : r.count ',' < f := by
          simp only [List.count_append, List.count_cons_self, hcnt] at hfuel; omega
        have hidx2 : (afterToken junk width height pre tok (',' :: r) st).idx
            = (pre ++ tok ++ [',']).length := by
          rw [afterToken_idx]; simp; omega
        obtain ⟨res, hres, hprop⟩ := ih r hlen2 (pre ++ tok ++ [',']) _ f hidx2 hfuel2
        have hstr : pre ++ tok ++ [','] ++ r = pre ++ tok ++ ',' :: r := by simp
        rw [hstr] at hres
        refine ⟨res, hstep.trans hres, fun hnul => ?_⟩
        have := hprop (fun d hd => hnul d (by simp [hd]))
        have hit : (afterToken junk width height pre tok (',' :: r) st).iterations
            = st.iterations + 1 := afterToken_iterations _ _ _ _ _ _ _
        rw [hit] at this
        simp only [List.count_append, List.count_cons_self, hcnt, List.length_append,
          List.length_cons, List.length_singleton, List.length_nil] at this ⊢
        omega

/-! ## The parser on well-formed tokens -/

theorem wrap32_id (n : Int) (h1 : -2147483648 ≤ n) (h2 : n < 2147483648) : wrap32 n = n := by
  unfold wrap32; omega

theorem isDigit_not_isspace (c : Char) (h : c.isDigit = true) : isspace c = false := by
  by_contra hs
  have hs : isspace c = true := by simpa using hs
  simp only [isspace, Bool.or_eq_true, decide_eq_true_eq] at hs
  rcases hs with ((((rfl | rfl) | rfl) | rfl) | rfl) | rfl <;> exact absurd h (by decide)

theorem isDigit_ne (c d : Char) (hc : c.isDigit = true) (hd : d.isDigit = false) : c ≠ d := by
  rintro rfl
  rw [hc] at hd
  exact Bool.noConfusion hd

theorem readDigits_append (ds : List Char) :
    ∀ (rest : List Char) (acc : Nat), ds.all Char.isDigit = true → noDigitAhead rest →
      readDigits (ds ++ rest) acc
        = (ds.foldl (fun n c => 10 * n + (c.toNat - 48)) acc, rest) := by
  induction ds with
  | nil =>
    intro rest acc _ hrest
    cases rest with
    | nil => rfl
    | cons c r =>
      have : c.isDigit = false := hrest
      simp [readDigits, this]
  | cons d ds ih =>
    intro rest acc hds hrest
    simp only [List.all_cons, Bool.and_eq_true] at hds
    simp only [List.cons_append, readDigits, hds.1, ↓reduceIte, List.foldl_cons]
    exact ih rest _ hds.2 hrest

theorem scan_d_digits (ds rest : List Char) (hne : ds ≠ []) (hds : ds.all Char.isDigit = true)
    (hval : digitsVal ds < 2147483648) (hrest : noDigitAhead rest) :
    scan_d (ds ++ rest) = some ((digitsVal ds : Int), rest) := by
  cases ds with
  | nil => exact absurd rfl hne
  | cons d ds =>
    have hd : d.isDigit = true := by
      simp only [List.all_cons, Bool.and_eq_true] at hds; exact hds.1
    have h1 : d ≠ '-' := isDigit_ne d '-' hd (by decide)
    have h2 : d ≠ '+' := isDigit_ne d '+' hd (by decide)
    have hrd := readDigits_append (d :: ds) rest 0 hds hrest
    have hw : wrap32 ((digitsVal (d :: ds) : Nat) : Int) = ((digitsVal (d :: ds) : Nat) : Int) :=
      wrap32_id _ (by omega) (by omega)
    have hsk : skipSpace (d :: ds ++ rest) = d :: ds ++ rest := by
      simp [skipSpace, isDigit_not_isspace d hd]
    have hsd : scan_digits false (d :: ds ++ rest)
        = some ((digitsVal (d :: ds) : Int), rest) := by
      have key : ∀ tl : List Char, scan_digits false (d :: tl)
          = some (wrap32 ((readDigits (d :: tl) 0).1 : Int), (readDigits (d :: tl) 0).2) := by
        intro tl; simp [scan_digits, hd]
      have hrd2 : readDigits (d :: (ds ++ rest)) 0 = (digitsVal (d :: ds), rest) := hrd
      have := key (ds ++ rest)
      rw [hrd2, hw] at this
      exact this
    unfold scan_d
    rw [hsk]
    show (if d = '-' then _ else _) = _
    rw [if_neg h1, if_neg h2]
    exact hsd

theorem noDigitAhead_of_stopsAt (rest : List Char) (h : stopsAt rest) : noDigitAhead rest := by
  cases rest with
  | nil => trivial
  | cons c r =>
    rcases h with rfl | rfl
    · exact (by decide : ('\x00' : Char).isDigit = false)
    · exact (by decide : (',' : Char).isDigit = false)

theorem sscanf_token (t : Token) (rest : List Char) (tmp : Int × Int)
    (ht : wellFormedToken t) (hrest : stopsAt rest) :
    sscanf_dxd (renderToken t ++ rest) tmp = ((digitsVal t.1 : Int), (digitsVal t.2 : Int)) := by
  obtain ⟨hw1, hw2, hw3, hh1, hh2, hh3⟩ := ht
  have e1 : renderToken t ++ rest = t.1 ++ ('x' :: (t.2 ++ rest)) := by
    simp [renderToken]
  have s1 := scan_d_digits t.1 ('x' :: (t.2 ++ rest)) hw1 hw2 hw3
    (by decide : ('x' : Char).isDigit = false)
  have s2 := scan_d_digits t.2 rest hh1 hh2 hh3 (noDigitAhead_of_stopsAt rest hrest)
  simp only [sscanf_dxd, e1, s1, s2, ↓reduceIte]

/-! ## The scan of a well-formed list -/

theorem consider_setPos (width height : Int) (st : Scan) (i k : Nat) (tmp : Int × Int) :
    consider width height (setPos st i k) tmp = setPos (consider width height st tmp) i k := by
  unfold consider setPos
  dsimp only
  split
  · split <;> rfl
  · rfl

theorem foldl_consider_setPos (width height : Int) (es : List (Int × Int)) :
    ∀ (st : Scan) (i k : Nat),
      es.foldl (consider width height) (setPos st i k)
        = setPos (es.foldl (consider width height) st) i k := by
  induction es with
  | nil => intro st i k; rfl
  | cons e es ih =>
    intro st i k
    simp only [List.foldl_cons, consider_setPos, ih]

theorem renderToken_sepfree (t : Token) (ht : wellFormedToken t) :
    ∀ c ∈ renderToken t, c ≠ '\x00' ∧ c ≠ ',' := by
  obtain ⟨_, hw2, _, _, hh2, _⟩ := ht
  intro c hc
  simp only [renderToken, List.mem_append, List.mem_cons] at hc
  have hdig : ∀ l : List Char, l.all Char.isDigit = true → c ∈ l → c ≠ '\x00' ∧ c ≠ ',' := by
    intro l hl hcl
    have := List.all_eq_true.1 hl c hcl
    exact ⟨isDigit_ne c _ this (by decide), isDigit_ne c _ this (by decide)⟩
  rcases hc with hc | rfl | hc
  · exact hdig _ hw2 hc
  · exact ⟨by decide, by decide⟩
  · exact hdig _ hh2 hc

theorem scanLoop_wellFormed (junk : Nat → Int × Int) (width height : Int) (ts : List Token) :
    ts ≠ [] → (∀ t ∈ ts, wellFormedToken t) →
      ∀ (pre : List Char) (st : Scan) (fuel : Nat), st.idx = pre.length → ts.length ≤ fuel →
        scanLoop junk (pre ++ renderList ts) width height fuel st
          = .ok (setPos ((ts.map tmpOf).foldl (consider width height) st)
              ((pre ++ renderList ts).length + 1) (st.iterations + ts.length)) := by
  induction ts with
  | nil => intro h; exact absurd rfl h
  | cons t ts ih =>
    intro _ hwf pre st fuel hidx hfuel
    obtain ⟨f, rfl⟩ : ∃ f, fuel = f + 1 := ⟨fuel - 1, by simp at hfuel; omega⟩
    have ht := hwf t (by simp)
    have hsep := renderToken_sepfree t ht
    cases ts with
    | nil =>
      have hstep := scanLoop_step junk width height pre (renderToken t) [] f st hsep trivial hidx
      simp only [List.append_nil] at hstep
      have hs := sscanf_token t [] (junk st.iterations) ht trivial
      simp only [List.append_nil] at hs
      rw [show renderList [t] = renderToken t from rfl, ← List.append_nil (pre ++ renderToken t)]
      simp only [List.append_nil]
      rw [hstep]
      simp only [afterToken, List.append_nil, hs, List.map_cons, List.map_nil, List.foldl_cons,
        List.foldl_nil, setPos, tmpOf, List.length_append, List.length_singleton]
    | cons u us =>
      have hrest : stopsAt (',' :: renderList (u :: us)) := Or.inr rfl
      have hstep := scanLoop_step junk width height pre (renderToken t)
        (',' :: renderList (u :: us)) f st hsep hrest hidx
      simp only [ne_eq, (by decide : ¬ (',' : Char) = '\x00'), not_false_eq_true,
        ↓reduceIte] at hstep
      have hs := sscanf_token t (',' :: renderList (u :: us)) (junk st.iterations) ht hrest
      have hrl : pre ++ renderList (t :: u :: us)
          = pre ++ renderToken t ++ ',' :: renderList (u :: us) := by
        simp [renderList]
      have hrl2 : pre ++ renderToken t ++ ',' :: renderList (u :: us)
          = (pre ++ renderToken t ++ [',']) ++ renderList (u :: us) := by simp
      have haft : afterToken junk width height pre (renderToken t)
            (',' :: renderList (u :: us)) st
          = setPos (consider width height st (tmpOf t))
              ((pre ++ renderToken t ++ [',']).length) (st.iterations + 1) := by
        simp only [afterToken, hs, setPos, tmpOf, List.length_append, List.length_singleton]
      rw [hrl, hstep, haft, hrl2]
      rw [ih (by simp) (fun x hx => hwf x (by simp [hx])) (pre ++ renderToken t ++ [','])
        _ f rfl (by simp at hfuel ⊢; omega)]
      rw [foldl_consider_setPos]
      simp only [setPos, List.map_cons, List.foldl_cons, List.length_cons]
      congr 2
      omega

/-! ## The selection -/

theorem float_round_exact (a : Nat) (h : a ≤ 16777216) : float_round a = a := by
  rcases Nat.lt_or_ge a 16777216 with h1 | h1
  · simp [float_round, float_ulp, h1, Nat.mod_one]
  · have : a = 16777216 := by omega
    subst this
    decide

theorem int_to_float_exact (n : Int) (h0 : 0 ≤ n) (h1 : n ≤ 16777216) : int_to_float n = n := by
  unfold int_to_float
  rw [if_neg (by omega), float_round_exact _ (by omega)]
  omega

theorem consider_skip (width height : Int) (st : Scan) (e : Int × Int)
    (hw : -2147483648 ≤ width - e.1) (hw2 : width - e.1 < 2147483648)
    (hh : -2147483648 ≤ height - e.2) (hh2 : height - e.2 < 2147483648)
    (hq : ¬ fits width height e) : consider width height st e = st := by
  unfold consider
  simp only [wrap32_id _ hw hw2, wrap32_id _ hh hh2]
  unfold fits at hq
  split
  · split
    · rename_i h1 h2
      exact absurd ⟨by omega, by omega, h2.2⟩ hq
    · rfl
  · rfl

theorem consider_update (width height : Int) (st : Scan) (e : Int × Int)
    (hW : width < 2147483648) (hH : height ≤ 16777216) (he : inRange e)
    (hq : fits width height e) (hm : height - e.2 ≤ st.min_diff) :
    consider width height st e
      = { st with frame_width := e.1, frame_height := e.2, min_diff := height - e.2 } := by
  obtain ⟨h1, h2, h3, h4⟩ := he
  obtain ⟨q1, q2, q3⟩ := hq
  unfold consider
  simp only [wrap32_id (width - e.1) (by omega) (by omega),
    wrap32_id (height - e.2) (by omega) (by omega),
    int_to_float_exact (height - e.2) (by omega) (by omega)]
  rw [if_pos ⟨by omega, by omega⟩, if_pos ⟨hm, q3⟩]

theorem consider_keep (width height : Int) (st : Scan) (e : Int × Int)
    (hW : width < 2147483648) (hH : height ≤ 16777216) (he : inRange e)
    (hq : fits width height e) (hm : st.min_diff < height - e.2) :
    consider width height st e = st := by
  obtain ⟨h1, h2, h3, h4⟩ := he
  obtain ⟨q1, q2, q3⟩ := hq
  unfold consider
  simp only [wrap32_id (width - e.1) (by omega) (by omega),
    wrap32_id (height - e.2) (by omega) (by omega),
    int_to_float_exact (height - e.2) (by omega) (by omega)]
  rw [if_pos ⟨by omega, by omega⟩, if_neg (fun h => absurd h.1 (by omega))]

theorem chosen_step (width height : Int) (es : List (Int × Int)) (st : Scan) (e : Int × Int)
    (hW0 : 0 ≤ width) (hW : width < 2147483648) (hH0 : 0 ≤ height) (hH : height ≤ 16777216)
    (he : inRange e) (hinv : Chosen width height es st) :
    Chosen width height (es ++ [e]) (consider width height st e) := by
  by_cases hq : fits width height e
  · by_cases hm : height - e.2 ≤ st.min_diff
    · rw [consider_update width height st e hW hH he hq hm]
      right
      refine ⟨e, by simp, hq, rfl, rfl, rfl, ?_⟩
      intro d hd hdq
      rcases List.mem_append.1 hd with hd | hd
      · rcases hinv with ⟨_, _, _, hno⟩ | ⟨e0, _, _, _, _, hmin, hbest⟩
        · exact absurd hdq (hno d hd)
        · have := hbest d hd hdq
          rw [hmin] at hm
          omega
      · rw [List.mem_singleton.1 hd]
    · have hm2 : st.min_diff < height - e.2 := by omega
      rw [consider_keep width height st e hW hH he hq hm2]
      rcases hinv with ⟨hmax, _, _, _⟩ | ⟨e0, he0, hq0, hfw, hfh, hmin, hbest⟩
      · exfalso
        rw [hmax] at hm2
        have := he.2.2.1
        unfold FLT_MAX at hm2
        omega
      · right
        refine ⟨e0, by simp [he0], hq0, hfw, hfh, hmin, ?_⟩
        intro d hd hdq
        rcases List.mem_append.1 hd with hd | hd
        · exact hbest d hd hdq
        · rw [List.mem_singleton.1 hd]
          rw [hmin] at hm2
          omega
  · have h1 := he.1
    have h2 := he.2.1
    have h3 := he.2.2.1
    have h4 := he.2.2.2
    · rw [consider_skip width height st e (by omega) (by omega) (by omega) (by omega) hq]
      rcases hinv with ⟨hmax, hfw, hfh, hno⟩ | ⟨e0, he0, hq0, hfw, hfh, hmin, hbest⟩
      · left
        refine ⟨hmax, hfw, hfh, ?_⟩
        intro d hd
        rcases List.mem_append.1 hd with hd | hd
        · exact hno d hd
        · rw [List.mem_singleton.1 hd]; exact hq
      · right
        refine ⟨e0, by simp [he0], hq0, hfw, hfh, hmin, ?_⟩
        intro d hd hdq
        rcases List.mem_append.1 hd with hd | hd
        · exact hbest d hd hdq
        · rw [List.mem_singleton.1 hd] at hdq; exact absurd hdq hq

theorem chosen_foldl (width height : Int)
    (hW0 : 0 ≤ width) (hW : width < 2147483648) (hH0 : 0 ≤ height) (hH : height ≤ 16777216)
    (es : List (Int × Int)) :
    ∀ (done : List (Int × Int)) (st : Scan), (∀ e ∈ es, inRange e) →
      Chosen width height done st →
      Chosen width height (done ++ es) (es.foldl (consider width height) st) := by
  induction es with
  | nil => intro done st _ h; simpa using h
  | cons e es ih =>
    intro done st hr h
    have h1 := chosen_step width height done st e hW0 hW hH0 hH (hr e (by simp)) h
    have h2 := ih (done ++ [e]) _ (fun x hx => hr x (by simp [hx])) h1
    simpa using h2

theorem chosen_init (width height : Int) : Chosen width height [] scanInit :=
  Or.inl ⟨rfl, rfl, rfl, by simp⟩

theorem tmpOf_inRange (t : Token) (ht : wellFormedToken t) : inRange (tmpOf t) := by
  obtain ⟨_, _, h3, _, _, h6⟩ := ht
  unfold inRange tmpOf
  refine ⟨?_, ?_, ?_, ?_⟩ <;> simp only <;> omega

theorem calc_wellFormed (junk : Nat → Int × Int) (width height : Int) (ts : List Token)
    (hne : ts ≠ []) (hwf : ∀ t ∈ ts, wellFormedToken t) :
    calc_optimal_camera_resolution junk (renderList ts) width height
      = .ok { width := ((ts.map tmpOf).foldl (consider width height) scanInit).frame_width,
              height := ((ts.map tmpOf).foldl (consider width height) scanInit).frame_height } := by
  have h := scanLoop_wellFormed junk width height ts hne hwf [] scanInit
    ((renderList ts).length + 1) rfl (by
      have : ts.length ≤ (renderList ts).length + 1 := by
        clear hne hwf
        induction ts with
        | nil => simp
        | cons t ts ih =>
          cases ts with
          | nil => simp
          | cons u us =>
            simp only [renderList, List.length_append, List.length_cons] at ih ⊢
            omega
      exact this)
  simp only [List.nil_append] at h
  unfold calc_optimal_camera_resolution scanSupported
  rw [h]
  rfl

theorem foldl_consider_frozen (width height : Int) (es : List (Int × Int)) :
    ∀ st : Scan, (∀ e ∈ es, consider width height st e = st) →
      es.foldl (consider width height) st = st := by
  induction es with
  | nil => intro st _; rfl
  | cons e es ih =>
    intro st h
    rw [List.foldl_cons, h e (by simp)]
    exact ih st (fun x hx => h x (by simp [hx]))

/-! ## Resolution Negotiator -/

theorem float_ulp_bounds (a : Nat) : 1 ≤ float_ulp a ∧ float_ulp a ≤ 256 := by
  unfold float_ulp
  split_ifs <;> omega

theorem float_round_le (a : Nat) : float_round a ≤ a + 256 := by
  obtain ⟨h1, h2⟩ := float_ulp_bounds a
  have hq : a / float_ulp a * float_ulp a ≤ a := Nat.div_mul_le_self a (float_ulp a)
  have hs : (a / float_ulp a + 1) * float_ulp a = a / float_ulp a * float_ulp a + float_ulp a := by
    ring
  unfold float_round
  dsimp only
  split
  · rw [hs]; omega
  · omega

theorem int_to_float_le_FLT_MAX (n : Int) (h0 : 0 ≤ n) (h1 : n < 2147483648) :
    int_to_float n ≤ FLT_MAX := by
  have := float_round_le n.natAbs
  unfold int_to_float FLT_MAX
  rw [if_neg (by omega)]
  omega

theorem consider_update_float (width height : Int) (st : Scan) (e : Int × Int)
    (hW : width < 2147483648) (hH : height < 2147483648) (he : inRange e)
    (hq : fits width height e) (hm : int_to_float (height - e.2) ≤ st.min_diff) :
    consider width height st e
      = { st with frame_width := e.1, frame_height := e.2,
                  min_diff := int_to_float (height - e.2) } := by
  obtain ⟨h1, h2, h3, h4⟩ := he
  obtain ⟨q1, q2, q3⟩ := hq
  unfold consider
  simp only [wrap32_id (width - e.1) (by omega) (by omega),
    wrap32_id (height - e.2) (by omega) (by omega)]
  rw [if_pos ⟨by omega, by omega⟩, if_pos ⟨hm, q3⟩]

theorem consider_keep_float (width height : Int) (st : Scan) (e : Int × Int)
    (hW : width < 2147483648) (hH : height < 2147483648) (he : inRange e)
    (hq : fits width height e) (hm : st.min_diff < int_to_float (height - e.2)) :
    consider width height st e = st := by
  obtain ⟨h1, h2, h3, h4⟩ := he
  obtain ⟨q1, q2, q3⟩ := hq
  unfold consider
  simp only [wrap32_id (width - e.1) (by omega) (by omega),
    wrap32_id (height - e.2) (by omega) (by omega)]
  rw [if_pos ⟨by omega, by omega⟩, if_neg (fun h => absurd h.1 (by omega))]

theorem chosenFloat_step (width height : Int) (es : List (Int × Int)) (st : Scan)
    (e : Int × Int) (hW0 : 0 ≤ width) (hW : width < 2147483648) (hH0 : 0 ≤ height)
    (hH : height < 2147483648) (he : inRange e) (hinv : ChosenFloat width height es st) :
    ChosenFloat width height (es ++ [e]) (consider width height st e) := by
  have h1 := he.1
  have h2 := he.2.1
  have h3 := he.2.2.1
  have h4 := he.2.2.2
  by_cases hq : fits width height e
  · have hfl := int_to_float_le_FLT_MAX (height - e.2) (by have := hq.2.1; omega) (by omega)
    by_cases hm : int_to_float (height - e.2) ≤ st.min_diff
    · rw [consider_update_float width height st e hW hH he hq hm]
      right
      refine ⟨e, by simp, hq, rfl, rfl, rfl, ?_⟩
      intro d hd hdq
      rcases List.mem_append.1 hd with hd | hd
      · rcases hinv with ⟨_, _, _, hno⟩ | ⟨e0, _, _, _, _, hmin, hbest⟩
        · exact absurd hdq (hno d hd)
        · have := hbest d hd hdq
          rw [hmin] at hm
          exact le_trans hm this
      · rw [List.mem_singleton.1 hd]
    · have hm2 : st.min_diff < int_to_float (height - e.2) := by omega
      rw [consider_keep_float width height st e hW hH he hq hm2]
      rcases hinv with ⟨hmax, _, _, _⟩ | ⟨e0, he0, hq0, hfw, hfh, hmin, hbest⟩
      · exfalso
        rw [hmax] at hm2
        omega
      · right
        refine ⟨e0, by simp [he0], hq0, hfw, hfh, hmin, ?_⟩
        intro d hd hdq
        rcases List.mem_append.1 hd with hd | hd
        · exact hbest d hd hdq
        · rw [List.mem_singleton.1 hd]
          rw [hmin] at hm2
          exact le_of_lt hm2
  · rw [consider_skip width height st e (by omega) (by omega) (by omega) (by omega) hq]
    rcases hinv with ⟨hmax, hfw, hfh, hno⟩ | ⟨e0, he0, hq0, hfw, hfh, hmin, hbest⟩
    · left
      refine ⟨hmax, hfw, hfh, ?_⟩
      intro d hd
      rcases List.mem_append.1 hd with hd | hd
      · exact hno d hd
      · rw [List.mem_singleton.1 hd]; exact hq
    · right
      refine ⟨e0, by simp [he0], hq0, hfw, hfh, hmin, ?_⟩
      intro d hd hdq
      rcases List.mem_append.1 hd with hd | hd
      · exact hbest d hd hdq
      · rw [List.mem_singleton.1 hd] at hdq; exact absurd hdq hq

theorem chosenFloat_foldl (width height : Int)
    (hW0 : 0 ≤ width) (hW : width < 2147483648) (hH0 : 0 ≤ height) (hH : height < 2147483648)
    (es : List (Int × Int)) :
    ∀ (done : List (Int × Int)) (st : Scan), (∀ e ∈ es, inRange e) →
      ChosenFloat width height done st →
      ChosenFloat width height (done ++ es) (es.foldl (consider width height) st) := by
  induction es with
  | nil => intro done st _ h; simpa using h
  | cons e es ih =>
    intro done st hr h
    have h1 := chosenFloat_step width height done st e hW0 hW hH0 hH (hr e (by simp)) h
    have h2 := ih (done ++ [e]) _ (fun x hx => hr x (by simp [hx])) h1
    simpa using h2

/-- C1, as amended: for a well-formed list (at least one token) and a target size of
`int` width and height, `calc_optimal_camera_resolution` returns a resolution within the
target and the 720 cap, and when some entry qualifies the result is a qualifying entry
of the list such that no qualifying entry has a smaller `height - entry.height` once
that difference is converted to `float`, as the code compares it; for a target height
of at most `2^24` that is the exact difference. -/
theorem calc_optimal_in_bounds_and_closest (junk : Nat → Int × Int) (ts : List Token)
    (width height : Int) (hne : ts ≠ []) (hwf : ∀ t ∈ ts, wellFormedToken t)
    (hW0 : 0 ≤ width) (hW : width < 2147483648)
    (hH0 : 0 ≤ height) (hH : height < 2147483648) :
    ∃ r, calc_optimal_camera_resolution junk (renderList ts) width height = .ok r ∧
      r.width ≤ width ∧ r.height ≤ height ∧ r.height ≤ 720 ∧
      ((∃ t ∈ ts, qualifies width height (entry t)) →
        (∃ t ∈ ts, r = entry t) ∧ qualifies width height r ∧
        (∀ t ∈ ts, qualifies width height (entry t) →
          int_to_float (height - r.height) ≤ int_to_float (height - (entry t).height)) ∧
        (height ≤ 16777216 → ∀ t ∈ ts, qualifies width height (entry t) →
          height - r.height ≤ height - (entry t).height)) := by
  rw [calc_wellFormed junk width height ts hne hwf]
  have hinv := chosenFloat_foldl width height hW0 hW hH0 hH (ts.map tmpOf) [] scanInit
    (fun e he => by
      obtain ⟨t, ht, rfl⟩ := List.mem_map.1 he
      exact tmpOf_inRange t (hwf t ht))
    (Or.inl ⟨rfl, rfl, rfl, by simp⟩)
  simp only [List.nil_append] at hinv
  refine ⟨_, rfl, ?_⟩
  rcases hinv with ⟨_, hfw, hfh, hno⟩ | ⟨e, he, hq, hfw, hfh, _, hbest⟩
  · simp only [hfw, hfh]
    refine ⟨hW0, hH0, by omega, ?_⟩
    rintro ⟨t, ht, htq⟩
    exact absurd htq (hno (tmpOf t) (List.mem_map.2 ⟨t, ht, rfl⟩))
  · obtain ⟨t, ht, rfl⟩ := List.mem_map.1 he
    simp only [hfw, hfh]
    have hrt := tmpOf_inRange t (hwf t ht)
    refine ⟨hq.1, hq.2.1, hq.2.2, fun _ => ⟨⟨t, ht, rfl⟩, hq, ?_, ?_⟩⟩
    · intro u hu huq
      exact hbest (tmpOf u) (List.mem_map.2 ⟨u, hu, rfl⟩) huq
    · intro hsmall u hu huq
      have hfl := hbest (tmpOf u) (List.mem_map.2 ⟨u, hu, rfl⟩) huq
      have hru := tmpOf_inRange u (hwf u hu)
      have huq2 : fits width height (tmpOf u) := huq
      have a1 := hrt.2.2.1
      have a2 := hru.2.2.1
      have a3 := hq.2.1
      have a4 := huq2.2.1
      rw [int_to_float_exact _ (by omega) (by omega),
        int_to_float_exact _ (by omega) (by omega)] at hfl
      exact hfl

/-- C2, as amended: for a well-formed list and a target height of at most `2^24`, when
several qualifying entries share the smallest `height - entry.height`,
`calc_optimal_camera_resolution` returns the one that appears last in the list: an
entry `t` is returned when it qualifies, no qualifying entry before it is strictly
closer and every qualifying entry after it is strictly farther. -/
theorem calc_optimal_tie_takes_last (junk : Nat → Int × Int) (l1 : List Token) (t : Token)
    (l2 : List Token) (width height : Int)
    (hwf : ∀ u ∈ l1 ++ t :: l2, wellFormedToken u)
    (hW : width < 2147483648) (hH : height ≤ 16777216)
    (hq : qualifies width height (entry t))
    (hbefore : ∀ u ∈ l1, qualifies width height (entry u) →
      height - (entry t).height ≤ height - (entry u).height)
    (hafter : ∀ u ∈ l2, qualifies width height (entry u) →
      height - (entry t).height < height - (entry u).height) :
    calc_optimal_camera_resolution junk (renderList (l1 ++ t :: l2)) width height
      = .ok (entry t) := by
  rw [calc_wellFormed junk width height _ (by simp) hwf]
  have hrt := tmpOf_inRange t (hwf t (by simp))
  have hqt : fits width height (tmpOf t) := hq
  have hW0 : 0 ≤ width := le_trans hrt.1 hqt.1
  have hH0 : 0 ≤ height := le_trans hrt.2.2.1 hqt.2.1
  have hinv := chosen_foldl width height hW0 hW hH0 hH (l1.map tmpOf) [] scanInit
    (fun e he => by
      obtain ⟨u, hu, rfl⟩ := List.mem_map.1 he
      exact tmpOf_inRange u (hwf u (by simp [hu])))
    (chosen_init width height)
  simp only [List.nil_append] at hinv
  have hmin : height - (tmpOf t).2
      ≤ ((l1.map tmpOf).foldl (consider width height) scanInit).min_diff := by
    rcases hinv with ⟨hmax, _, _, _⟩ | ⟨e, he, heq, _, _, hm, _⟩
    · rw [hmax]
      have := hrt.2.2.1
      unfold FLT_MAX
      omega
    · obtain ⟨u, hu, rfl⟩ := List.mem_map.1 he
      rw [hm]
      exact hbefore u hu heq
  simp only [List.map_append, List.map_cons, List.foldl_append, List.foldl_cons]
  rw [consider_update width height _ (tmpOf t) hW hH hrt hqt hmin]
  rw [foldl_consider_frozen]
  · rfl
  · intro e he
    obtain ⟨u, hu, rfl⟩ := List.mem_map.1 he
    have hru := tmpOf_inRange u (hwf u (by simp [hu]))
    by_cases hqu : fits width height (tmpOf u)
    · exact consider_keep width height _ (tmpOf u) hW hH hru hqu (hafter u hu hqu)
    · have h1 := hru.1
      have h2 := hru.2.2.1
      have h3 := hru.2.1
      have h4 := hru.2.2.2
      exact consider_skip width height _ (tmpOf u) (by omega) (by omega) (by omega)
        (by omega) hqu

/-- C4: for a well-formed list (at least one token) and a target size of `int` width
and height such that no entry of the list qualifies,
`calc_optimal_camera_resolution` returns `0x0`. -/
theorem calc_optimal_no_candidate_zero (junk : Nat → Int × Int) (ts : List Token)
    (width height : Int) (hne : ts ≠ []) (hwf : ∀ t ∈ ts, wellFormedToken t)
    (hW0 : 0 ≤ width) (hW : width < 2147483648)
    (hH0 : 0 ≤ height) (hH : height < 2147483648)
    (hno : ∀ t ∈ ts, ¬ qualifies width height (entry t)) :
    calc_optimal_camera_resolution junk (renderList ts) width height
      = .ok { width := 0, height := 0 } := by
  rw [calc_wellFormed junk width height ts hne hwf, foldl_consider_frozen]
  · rfl
  · intro e he
    obtain ⟨t, ht, rfl⟩ := List.mem_map.1 he
    have hr := tmpOf_inRange t (hwf t ht)
    have h1 := hr.1
    have h2 := hr.2.2.1
    have h3 := hr.2.1
    have h4 := hr.2.2.2
    exact consider_skip width height _ (tmpOf t) (by omega) (by omega) (by omega) (by omega)
      (hno t ht)

/-- C10: for every NUL-terminated string (its characters before the terminator contain
no NUL) the scan of `calc_optimal_camera_resolution` ends without a fault, so without
a read beyond position `length`, after exactly (number of commas) + 1 loop bodies, and
the last position it reads, `idx - 1`, is the terminator at `length`. -/
theorem scan_terminates_in_bounds (junk : Nat → Int × Int) (width height : Int)
    (s : List Char) (hs : ∀ c ∈ s, c ≠ '\x00') :
    ∃ r, scanSupported junk s width height = .ok r ∧
      r.iterations = s.count ',' + 1 ∧ r.idx - 1 = s.length := by
  obtain ⟨r, hr, hprop⟩ := scanLoop_total junk width height s.length s (le_refl _) []
    scanInit (s.length + 1) rfl (Nat.lt_succ_of_le (List.count_le_length _ _))
  simp only [List.nil_append] at hr hprop
  obtain ⟨h1, h2⟩ := hprop hs
  refine ⟨r, hr, ?_, ?_⟩
  · rw [h1]; simp [scanInit]
  · rw [h2]; simp

theorem calc_total (junk : Nat → Int × Int) (width height : Int) (s : List Char) :
    ∃ r, calc_optimal_camera_resolution junk s width height = .ok r := by
  obtain ⟨r, hr, _⟩ := scanLoop_total junk width height s.length s (le_refl _) []
    scanInit (s.length + 1) rfl (Nat.lt_succ_of_le (List.count_le_length _ _))
  simp only [List.nil_append] at hr
  refine ⟨{ width := r.frame_width, height := r.frame_height }, ?_⟩
  unfold calc_optimal_camera_resolution scanSupported
  rw [hr]

/-! ## Lifecycle -/

theorem configured_append (a b : List Call) :
    configured (a ++ b) = configured a ++ configured b := by
  induction a with
  | nil => rfl
  | cons c a ih => cases c <;> simp [configured, ih]

theorem configured_Ptr_delete (capture : Option Bool) :
    configured (Ptr_delete capture) = [] := by
  cases capture with
  | none => rfl
  | some held => cases held <;> rfl

theorem engine_init_display_calls (e : engine) (env : InitEnv) :
    (engine_init_display e env).calls = e.calls := by
  unfold engine_init_display
  split <;> rfl

/-- C6, as amended: on `APP_CMD_INIT_WINDOW` with a window and a supported-resolution
string `s`, the resolution the handler sets on the capture device is
`calc_optimal_camera_resolution(s, 640, 480)`, for every view size: the target is the
constant 640x480, and nothing is set when the result has a zero side. -/
theorem init_window_uses_fixed_target (e : engine) (env : InitEnv) (view : Size)
    (s : List Char) (hwin : e.window = some view) (hname : env.name = some s) :
    ∃ r e1, calc_optimal_camera_resolution env.junk s 640 480 = .ok r ∧
      engine_handle_cmd e (.APP_CMD_INIT_WINDOW env) = .ok e1 ∧
      configured e1.calls
        = configured e.calls ++ (if r.width ≠ 0 ∧ r.height ≠ 0 then [r] else []) := by
  obtain ⟨r, hr⟩ := calc_total env.junk 640 480 s
  have hres : init_window_camera_resolution env view = .ok r := by
    unfold init_window_camera_resolution
    rw [hname]
    exact hr
  unfold engine_handle_cmd
  simp only [hwin, hres]
  by_cases hz : r.width ≠ 0 ∧ r.height ≠ 0
  · simp only [hz, and_self, ↓reduceIte, not_false_eq_true, ne_eq]
    have hz2 : ¬r.width = 0 ∧ ¬r.height = 0 := hz
    by_cases hg : env.geometry_ok = true
    · refine ⟨r, _, hr, by rw [if_pos hg], ?_⟩
      rw [engine_init_display_calls]
      simp [configured_append, configured, configured_Ptr_delete, hz2]
    · refine ⟨r, _, hr, by rw [if_neg hg], ?_⟩
      simp [configured_append, configured, configured_Ptr_delete, hz2]
  · simp only [hz, ↓reduceIte]
    have hz2 : ¬r.width = 0 → r.height = 0 := fun h => by
      by_contra h2
      exact hz ⟨h, h2⟩
    by_cases hg : env.geometry_ok = true
    · refine ⟨r, _, hr, by rw [if_pos hg], ?_⟩
      rw [engine_init_display_calls]
      simpa [configured_append, configured, configured_Ptr_delete] using hz2
    · refine ⟨r, _, hr, by rw [if_neg hg], ?_⟩
      simpa [configured_append, configured, configured_Ptr_delete] using hz2

theorem term_display_facts (e : engine) :
    (engine_term_display e).capture = e.capture ∧
    (engine_term_display e).display = false ∧
    captureReleases (engine_term_display e).calls = captureReleases e.calls ∧
    owedTeardowns (engine_term_display e) = owedTeardowns e := by
  rcases e with ⟨window, capture, hasFocus, grab, trained, display, context, surface, calls⟩
  cases display <;> cases context <;> cases surface <;>
    simp [engine_term_display, captureReleases, contextTeardowns, owedTeardowns,
      List.count_append]

theorem captureReleases_release (calls : List Call) (held : Bool) :
    captureReleases (calls ++ VideoCapture_release held)
      = captureReleases calls + (if held then 1 else 0) := by
  cases held <;> simp [captureReleases, VideoCapture_release, List.count_append]

theorem contextTeardowns_release (calls : List Call) (held : Bool) :
    contextTeardowns (calls ++ VideoCapture_release held) = contextTeardowns calls := by
  cases held <;> simp [contextTeardowns, VideoCapture_release, List.count_append]

theorem destructor_facts (e : engine) :
    (engine_destructor e).capture = none ∧
    (engine_destructor e).display = e.display ∧
    captureReleases (engine_destructor e).calls = owedReleases e ∧
    owedTeardowns (engine_destructor e) = owedTeardowns e := by
  rcases e with ⟨window, capture, hasFocus, grab, trained, display, context, surface, calls⟩
  cases capture with
  | none => simp [engine_destructor, Ptr_delete, owedReleases, owedTeardowns]
  | some held =>
    refine ⟨rfl, rfl, ?_, ?_⟩
    · simp only [engine_destructor, Ptr_delete, owedReleases, captureReleases_release]
      cases held <;> simp
    · simp only [engine_destructor, Ptr_delete, owedTeardowns, contextTeardowns_release]

theorem process_between (e : engine) (ev : Event) (hb : isInitWindow ev = false)
    (hcap : e.capture ≠ none) :
    ∃ e1, process e ev = .ok e1 ∧ e1.capture ≠ none ∧
      owedReleases e1 = owedReleases e ∧ owedTeardowns e1 = owedTeardowns e := by
  cases ev with
  | input motion =>
    cases motion
    · exact ⟨e, rfl, hcap, rfl, rfl⟩
    · exact ⟨{ e with grabFeatures := true }, rfl, hcap, rfl, rfl⟩
  | cmd c =>
    cases c with
    | APP_CMD_INIT_WINDOW env => simp [isInitWindow] at hb
    | APP_CMD_TERM_WINDOW =>
      obtain ⟨h1, h2, h3, h4⟩ := term_display_facts e
      cases hc : e.capture with
      | none => exact absurd hc hcap
      | some held =>
        have hc1 : (engine_term_display e).capture = some held := by rw [h1, hc]
        refine ⟨{ engine_term_display e with
            capture := some false,
            calls := (engine_term_display e).calls ++ VideoCapture_release held,
            window := none }, ?_, by simp, ?_, ?_⟩
        · simp [process, engine_handle_cmd, hc1]
        · simp only [owedReleases, captureReleases_release, h3, hc]
          cases held <;> simp
        · simp only [owedTeardowns, contextTeardowns_release] at h4 ⊢
          exact h4
    | APP_CMD_GAINED_FOCUS => exact ⟨{ e with hasFocus := true }, rfl, hcap, rfl, rfl⟩
    | APP_CMD_LOST_FOCUS => exact ⟨{ e with hasFocus := false }, rfl, hcap, rfl, rfl⟩
    | APP_CMD_DESTROY => exact ⟨e, rfl, hcap, rfl, rfl⟩
    | APP_CMD_OTHER => exact ⟨e, rfl, hcap, rfl, rfl⟩

theorem poll_events_between (evs : List Event) :
    ∀ e : engine, (∀ ev ∈ evs, isInitWindow ev = false) → e.capture ≠ none →
      ∃ e1, poll_events e evs = .ok (e1, evs.any destroyRequested) ∧
        (evs.any destroyRequested = false →
          e1.capture ≠ none ∧ owedReleases e1 = owedReleases e ∧
          owedTeardowns e1 = owedTeardowns e) ∧
        (evs.any destroyRequested = true →
          e1.display = false ∧ captureReleases e1.calls = owedReleases e ∧
          owedTeardowns e1 = owedTeardowns e) := by
  induction evs with
  | nil =>
    intro e _ hcap
    exact ⟨e, rfl, fun _ => ⟨hcap, rfl, rfl⟩, by simp⟩
  | cons ev evs ih =>
    intro e hb hcap
    obtain ⟨e1, hp, hc1, hr1, ho1⟩ := process_between e ev (hb ev (by simp)) hcap
    by_cases hd : destroyRequested ev = true
    · obtain ⟨t1, t2, t3, t4⟩ := term_display_facts e1
      obtain ⟨d1, d2, d3, d4⟩ := destructor_facts (engine_term_display e1)
      refine ⟨engine_destructor (engine_term_display e1), ?_, ?_, ?_⟩
      · simp [poll_events, hp, hd]
      · intro h; simp [hd] at h
      · intro _
        refine ⟨by rw [d2, t2], ?_, by rw [d4, t4, ho1]⟩
        rw [d3, ← hr1]
        simp only [owedReleases, t1, t3]
    · have hd' : destroyRequested ev = false := by simpa using hd
      obtain ⟨e2, hp2, hno, hyes⟩ := ih e1 (fun x hx => hb x (by simp [hx])) hc1
      refine ⟨e2, ?_, ?_, ?_⟩
      · simp [poll_events, hp, hd', hp2]
      · intro h
        obtain ⟨a, b, c⟩ := hno (by simpa [hd'] using h)
        exact ⟨a, by rw [b, hr1], by rw [c, ho1]⟩
      · intro h
        obtain ⟨a, b, c⟩ := hyes (by simpa [hd'] using h)
        exact ⟨a, by rw [b, hr1], by rw [c, ho1]⟩

theorem draw_frame_facts (e : engine) :
    (engine_draw_frame e).capture = e.capture ∧
    owedReleases (engine_draw_frame e) = owedReleases e ∧
    owedTeardowns (engine_draw_frame e) = owedTeardowns e := by
  unfold engine_draw_frame
  split
  · exact ⟨rfl, rfl, rfl⟩
  · simp [owedReleases, captureReleases, contextTeardowns, owedTeardowns, List.count_append]

theorem main_loop_between (its : List (List Event)) :
    ∀ e : engine, (∀ evs ∈ its, ∀ ev ∈ evs, isInitWindow ev = false) → e.capture ≠ none →
      (allEvents its).any destroyRequested = true →
      ∃ e1, main_loop e its = .ok e1 ∧ e1.display = false ∧
        captureReleases e1.calls = owedReleases e ∧ owedTeardowns e1 = owedTeardowns e := by
  induction its with
  | nil =>
    intro e _ _ h
    simp [allEvents] at h
  | cons evs its ih =>
    intro e hb hcap hdes
    obtain ⟨e1, hp, hno, hyes⟩ := poll_events_between evs e (hb evs (by simp)) hcap
    by_cases hd : evs.any destroyRequested = true
    · rw [hd] at hp
      obtain ⟨a, b, c⟩ := hyes hd
      exact ⟨e1, by simp [main_loop, hp], a, b, c⟩
    · have hd' : evs.any destroyRequested = false := by simpa using hd
      rw [hd'] at hp
      obtain ⟨a, b, c⟩ := hno hd'
      obtain ⟨g1, g2, g3⟩ := draw_frame_facts e1
      have hdes2 : (allEvents its).any destroyRequested = true := by
        simpa [allEvents, hd'] using hdes
      obtain ⟨e2, hm, x, y, z⟩ :=
        ih (engine_draw_frame e1) (fun u hu => hb u (by simp [hu])) (by rw [g1]; exact a) hdes2
      exact ⟨e2, by simp [main_loop, hp, hm], x, by rw [y, g2, b], by rw [z, g3, c]⟩

theorem process_quiet (e : engine) (ev : Event) (hq : isQuiet ev = true) (hp : Pristine e) :
    ∃ e1, process e ev = .ok e1 ∧ Pristine e1 ∧ destroyRequested ev = false := by
  cases ev with
  | input motion =>
    cases motion
    · exact ⟨e, rfl, hp, rfl⟩
    · exact ⟨{ e with grabFeatures := true }, rfl, hp, rfl⟩
  | cmd c =>
    cases c with
    | APP_CMD_INIT_WINDOW env => simp [isQuiet] at hq
    | APP_CMD_TERM_WINDOW => simp [isQuiet] at hq
    | APP_CMD_GAINED_FOCUS => exact ⟨{ e with hasFocus := true }, rfl, hp, rfl⟩
    | APP_CMD_LOST_FOCUS => exact ⟨{ e with hasFocus := false }, rfl, hp, rfl⟩
    | APP_CMD_DESTROY => simp [isQuiet] at hq
    | APP_CMD_OTHER => exact ⟨e, rfl, hp, rfl⟩

theorem poll_events_quiet (before : List Event) :
    ∀ e : engine, Pristine e → (∀ ev ∈ before, isQuiet ev = true) →
      ∃ e1, Pristine e1 ∧ ∀ tail, poll_events e (before ++ tail) = poll_events e1 tail := by
  induction before with
  | nil => intro e hp _; exact ⟨e, hp, fun _ => rfl⟩
  | cons ev before ih =>
    intro e hp hq
    obtain ⟨e1, h1, hp1, hd⟩ := process_quiet e ev (hq ev (by simp)) hp
    obtain ⟨e2, hp2, h2⟩ := ih e1 hp1 (fun x hx => hq x (by simp [hx]))
    refine ⟨e2, hp2, fun tail => ?_⟩
    rw [← h2 tail]
    simp [poll_events, h1, hd]

theorem draw_frame_pristine (e : engine) (hp : Pristine e) : engine_draw_frame e = e := by
  unfold engine_draw_frame
  rw [hp.1]

theorem main_loop_quiet (pre : List (List Event)) :
    ∀ e : engine, Pristine e → (∀ evs ∈ pre, ∀ ev ∈ evs, isQuiet ev = true) →
      ∃ e1, Pristine e1 ∧ ∀ its, main_loop e (pre ++ its) = main_loop e1 its := by
  induction pre with
  | nil => intro e hp _; exact ⟨e, hp, fun _ => rfl⟩
  | cons evs pre ih =>
    intro e hp hq
    obtain ⟨e1, hp1, h1⟩ := poll_events_quiet evs e hp (hq evs (by simp))
    obtain ⟨e2, hp2, h2⟩ := ih e1 hp1 (fun u hu => hq u (by simp [hu]))
    refine ⟨e2, hp2, fun its => ?_⟩
    have hpoll : poll_events e evs = .ok (e1, false) := by
      have := h1 []
      simpa [poll_events] using this
    rw [← h2 its]
    simp [main_loop, hpoll, draw_frame_pristine e1 hp1]

theorem init_window_facts (e : engine) (env : InitEnv) (view : Size) (hp : Pristine e)
    (hcreated : windowCreated env view) :
    ∃ e0, process e (.cmd (.APP_CMD_INIT_WINDOW env)) = .ok e0 ∧ e0.capture ≠ none ∧
      owedReleases e0 = 1 ∧ owedTeardowns e0 = 1 := by
  obtain ⟨hwin, hgeo, hmc, hdisp, hctx⟩ := hcreated
  obtain ⟨p1, p2, p3, p4, p5, p6⟩ := hp
  have hres : ∃ r, init_window_camera_resolution env view = .ok r := by
    unfold init_window_camera_resolution
    cases env.name with
    | none => exact ⟨view, rfl⟩
    | some s => exact calc_total env.junk 640 480 s
  obtain ⟨r, hr⟩ := hres
  cases h : process e (.cmd (.APP_CMD_INIT_WINDOW env)) with
  | error f =>
    simp only [process, engine_handle_cmd, hwin, hr, hgeo, ↓reduceIte] at h
    exact Except.noConfusion h
  | ok e0 =>
    simp only [process, engine_handle_cmd, hwin, hr, hgeo, ↓reduceIte] at h
    injection h with h
    subst h
    refine ⟨_, rfl, ?_, ?_, ?_⟩
    · simp only [engine_init_display, hmc, ↓reduceIte]
      split <;> simp
    · simp only [engine_init_display, hmc, ↓reduceIte, owedReleases]
      split <;> simp [p2, p6, Ptr_delete, captureReleases]
    · simp only [engine_init_display, hmc, ↓reduceIte, owedTeardowns, hdisp, hctx]
      split <;> simp [p2, p6, Ptr_delete, contextTeardowns]

/-- C7: for every lifecycle event sequence in which a destroy request arrives after a
window-created event, whatever input, focus and `APP_CMD_TERM_WINDOW` events lie in
between (and whatever input and focus events came before the window), and however
the events are spread over loop iterations, `android_main` returns having given the
capture device back exactly once and having destroyed the EGL context exactly once. -/
theorem destroy_after_window_created (env : InitEnv) (view : Size)
    (pre : List (List Event)) (before first : List Event) (rest : List (List Event))
    (hcreated : windowCreated env view)
    (hpre : ∀ evs ∈ pre, ∀ ev ∈ evs, isQuiet ev = true)
    (hbefore : ∀ ev ∈ before, isQuiet ev = true)
    (hfirst : ∀ ev ∈ first, isInitWindow ev = false)
    (hrest : ∀ evs ∈ rest, ∀ ev ∈ evs, isInitWindow ev = false)
    (hdestroy : (first ++ allEvents rest).any destroyRequested = true) :
    ∃ e, android_main (pre ++ (before ++ .cmd (.APP_CMD_INIT_WINDOW env) :: first) :: rest)
        = .ok e ∧
      captureReleases e.calls = 1 ∧ contextTeardowns e.calls = 1 := by
  have hz : Pristine engine_zero := ⟨rfl, rfl, rfl, rfl, rfl, rfl⟩
  obtain ⟨e1, hp1, h1⟩ := main_loop_quiet pre engine_zero hz hpre
  obtain ⟨e2, hp2, h2⟩ := poll_events_quiet before e1 hp1 hbefore
  obtain ⟨e0, hp, hc0, hr0, ho0⟩ := init_window_facts e2 env view hp2 hcreated
  have hpoll : poll_events e1 (before ++ .cmd (.APP_CMD_INIT_WINDOW env) :: first)
      = poll_events e0 first := by
    rw [h2]
    simp only [poll_events, hp, destroyRequested, Bool.false_eq_true, ↓reduceIte]
  have hshift :
      main_loop e1 ((before ++ .cmd (.APP_CMD_INIT_WINDOW env) :: first) :: rest)
        = main_loop e0 (first :: rest) := by
    simp only [main_loop, hpoll]
  obtain ⟨e3, hm, hd3, hr3, ho3⟩ := main_loop_between (first :: rest) e0
    (fun evs hevs => by
      rcases List.mem_cons.1 hevs with rfl | h
      · exact hfirst
      · exact hrest evs h) hc0 (by simpa [allEvents] using hdestroy)
  refine ⟨e3, by unfold android_main; rw [h1, hshift, hm], by rw [hr3, hr0], ?_⟩
  rw [ho0] at ho3
  simpa [owedTeardowns, hd3] using ho3

/-! ## Frame-Rate Estimator -/

theorem recordAll_snoc (l : List Int) (x : Int) :
    recordAll (l ++ [x]) = record (recordAll l) x := by
  simp [recordAll, List.foldl_append]

/-- C9: for every sequence of recorded timestamps the window holds, after the last
record completes, the most recent ones in insertion order and never more than 25 of
them; once at least 25 have been recorded it holds exactly 25, so that recording
a 26th evicts the oldest and the size stays 25. -/
theorem record_keeps_last_25 (stamps : List Int) :
    recordAll stamps = stamps.drop (stamps.length - 25) ∧
    (recordAll stamps).length ≤ 25 ∧
    (recordAll stamps).length = min stamps.length 25 := by
  have key : recordAll stamps = stamps.drop (stamps.length - 25) := by
    induction stamps using List.reverseRecOn with
    | nil => rfl
    | append_singleton l x ih =>
      rw [recordAll_snoc, ih]
      unfold record
      simp only [List.length_append, List.length_drop, List.length_singleton]
      by_cases h : 25 ≤ l.length
      · rw [if_pos (by omega)]
        have hne : l.drop (l.length - 25) ≠ [] := by
          intro h0
          have := congrArg List.length h0
          simp only [List.length_drop, List.length_nil] at this
          omega
        rw [List.tail_append_of_ne_nil hne, List.tail_drop,
          List.drop_append_of_le_length (by omega)]
        congr 2
        omega
      · rw [if_neg (by omega)]
        have h1 : l.length - 25 = 0 := by omega
        have h2 : l.length + 1 - 25 = 0 := by omega
        rw [h1, h2]
        rfl
  refine ⟨key, ?_, ?_⟩ <;> rw [key, List.length_drop] <;> omega

/-! ## Evaluations, counterexamples, instances -/

/-- C1 fails as stated: with target 1x16777217 the list `1x1,1x0` yields `1x0` although
`1x1` qualifies and is strictly closer in height; the `float` comparison cannot tell
the difference 16777216 from 16777217. -/
theorem calc_optimal_target_counterexample :
    calc_optimal_camera_resolution (junkOf 0 0) ("1x1,1x0").toList 1 16777217
      = .ok { width := 1, height := 0 } ∧
    qualifies 1 16777217 { width := 1, height := 1 } ∧
    (16777217 : Int) - 1 < 16777217 - 0 := by
  decide

/-- C1 as amended at the list `320x240,640x480,1280x720,1920x1080` with target 640x480,
where the function returns 640x480. -/
theorem calc_optimal_in_bounds_and_closest_witness :
    calc_optimal_camera_resolution (junkOf 0 0) (renderList supportedExample) 640 480
        = .ok { width := 640, height := 480 } ∧
    ∃ r, calc_optimal_camera_resolution (junkOf 0 0) (renderList supportedExample) 640 480
        = .ok r ∧
      r.width ≤ 640 ∧ r.height ≤ 480 ∧ r.height ≤ 720 ∧
      ((∃ t ∈ supportedExample, qualifies 640 480 (entry t)) →
        (∃ t ∈ supportedExample, r = entry t) ∧ qualifies 640 480 r ∧
        (∀ t ∈ supportedExample, qualifies 640 480 (entry t) →
          int_to_float (480 - r.height) ≤ int_to_float (480 - (entry t).height)) ∧
        ((480 : Int) ≤ 16777216 → ∀ t ∈ supportedExample, qualifies 640 480 (entry t) →
          480 - r.height ≤ 480 - (entry t).height)) :=
  ⟨by decide,
    calc_optimal_in_bounds_and_closest (junkOf 0 0) supportedExample 640 480
      (by decide) (by decide) (by decide) (by decide) (by decide) (by decide)⟩

/-- C2 fails as stated: on `640x480,320x480` with target 640x480 both entries qualify
with difference 0 and the function returns the second one, 320x480. -/
theorem calc_optimal_tie_not_first :
    calc_optimal_camera_resolution (junkOf 0 0) ("640x480,320x480").toList 640 480
      = .ok { width := 320, height := 480 } ∧
    qualifies 640 480 { width := 640, height := 480 } ∧
    qualifies 640 480 { width := 320, height := 480 } := by
  decide

/-- C2 as amended at the list `640x480,320x480` with target 640x480. -/
theorem calc_optimal_tie_takes_last_witness :
    calc_optimal_camera_resolution (junkOf 0 0)
        (renderList ([(("640").toList, ("480").toList)]
          ++ (("320").toList, ("480").toList) :: [])) 640 480
      = .ok (entry (("320").toList, ("480").toList)) :=
  calc_optimal_tie_takes_last (junkOf 0 0) [(("640").toList, ("480").toList)]
    (("320").toList, ("480").toList) [] 640 480
    (by decide) (by decide) (by decide) (by decide) (by decide) (by decide)

/-- C3 on the code: with target 640x480 the list `640x480` gives 640x480, and the list
`640x480,320x` gives 320x480 when `tmp_height`, which the failed second conversion
leaves unassigned, still holds the 480 of the previous iteration. -/
theorem malformed_token_changes_result :
    calc_optimal_camera_resolution (junkOf 640 480) ("640x480").toList 640 480
      = .ok { width := 640, height := 480 } ∧
    calc_optimal_camera_resolution (junkOf 640 480) ("640x480,320x").toList 640 480
      = .ok { width := 320, height := 480 } := by
  decide

/-- C4 at the list `1920x1080` with target 640x480. -/
theorem calc_optimal_no_candidate_zero_witness :
    calc_optimal_camera_resolution (junkOf 0 0)
        (renderList [(("1920").toList, ("1080").toList)]) 640 480
      = .ok { width := 0, height := 0 } :=
  calc_optimal_no_candidate_zero (junkOf 0 0) [(("1920").toList, ("1080").toList)] 640 480
    (by decide) (by decide) (by decide) (by decide) (by decide) (by decide) (by decide)

/-- C5 on the code: on the empty string, and on `abc`, with target 640x480 the function
returns whatever the uninitialised `tmp_width` and `tmp_height` hold when that fits the
target: 320x240 in one run, 0x0 in another. -/
theorem empty_string_returns_junk :
    calc_optimal_camera_resolution (junkOf 320 240) [] 640 480
      = .ok { width := 320, height := 240 } ∧
    calc_optimal_camera_resolution (junkOf 0 0) [] 640 480
      = .ok { width := 0, height := 0 } ∧
    calc_optimal_camera_resolution (junkOf 320 240) ("abc").toList 640 480
      = .ok { width := 320, height := 240 } := by
  decide

/-- C6 fails as stated: with a 1280x720 view and the device string `320x240,1280x720`
the handler sets 320x240 on the capture device, while the negotiator run against the
dimensions of the view gives 1280x720. -/
theorem init_window_ignores_view_size :
    configuredBy (engine_handle_cmd { engine_zero with window := envExample.window }
        (.APP_CMD_INIT_WINDOW envExample))
      = some [{ width := 320, height := 240 }] ∧
    calc_optimal_camera_resolution (junkOf 0 0) ("320x240,1280x720").toList 1280 720
      = .ok { width := 1280, height := 720 } := by
  decide

/-- C6 as amended at a 1280x720 view with the device string `320x240,1280x720`. -/
theorem init_window_uses_fixed_target_witness :
    ∃ r e1, calc_optimal_camera_resolution envExample.junk ("320x240,1280x720").toList 640 480
        = .ok r ∧
      engine_handle_cmd { engine_zero with window := envExample.window }
        (.APP_CMD_INIT_WINDOW envExample) = .ok e1 ∧
      configured e1.calls
        = configured ({ engine_zero with window := envExample.window } : engine).calls
          ++ (if r.width ≠ 0 ∧ r.height ≠ 0 then [r] else []) :=
  init_window_uses_fixed_target { engine_zero with window := envExample.window } envExample
    { width := 1280, height := 720 } ("320x240,1280x720").toList rfl rfl

/-- C7 on: focus gained before the window exists, window created, a frame drawn, focus
lost and window destroyed in the next iteration, then the destroy request; and on a
destroy request that follows the window-created event at once. -/
theorem destroy_after_window_created_witness :
    (∃ e, android_main
        ([[.cmd .APP_CMD_GAINED_FOCUS]]
          ++ ([.input true] ++ .cmd (.APP_CMD_INIT_WINDOW envExample) :: [.input false])
          :: [[.cmd .APP_CMD_LOST_FOCUS, .cmd .APP_CMD_TERM_WINDOW], [.cmd .APP_CMD_DESTROY]])
        = .ok e ∧
      captureReleases e.calls = 1 ∧ contextTeardowns e.calls = 1) ∧
    (∃ e, android_main
        ([] ++ ([] ++ .cmd (.APP_CMD_INIT_WINDOW envExample) :: [.cmd .APP_CMD_DESTROY]) :: [])
        = .ok e ∧
      captureReleases e.calls = 1 ∧ contextTeardowns e.calls = 1) :=
  ⟨destroy_after_window_created envExample { width := 1280, height := 720 }
      [[.cmd .APP_CMD_GAINED_FOCUS]] [.input true] [.input false]
      [[.cmd .APP_CMD_LOST_FOCUS, .cmd .APP_CMD_TERM_WINDOW], [.cmd .APP_CMD_DESTROY]]
      ⟨rfl, rfl, rfl, rfl, rfl⟩ (by simp [isQuiet]) (by simp [isQuiet])
      (by simp [isInitWindow]) (by simp [isInitWindow]) (by decide),
   destroy_after_window_created envExample { width := 1280, height := 720 }
      [] [] [.cmd .APP_CMD_DESTROY] []
      ⟨rfl, rfl, rfl, rfl, rfl⟩ (by simp) (by simp)
      (by simp [isInitWindow]) (by simp) (by decide)⟩

/-- C8 on the code: the state starts with `grabFeatures = false`, `trained = false`;
after a window was created, focus gained and a motion event received, two further loop
iterations leave `grabFeatures = true` and `trained = false`: the loop body only
draws, the request is never consumed and the state never becomes Trained. -/
theorem grab_request_never_consumed :
    engine_zero.grabFeatures = false ∧ engine_zero.trained = false ∧
    pipelineFlags (android_main
        [[.cmd (.APP_CMD_INIT_WINDOW envExample), .cmd .APP_CMD_GAINED_FOCUS, .input true],
         [], []]) = some (true, false) := by
  decide

/-- C10 at the string `320x240,,abc,640x480`. -/
theorem scan_terminates_in_bounds_witness :
    ∃ r, scanSupported (junkOf 0 0) ("320x240,,abc,640x480").toList 640 480 = .ok r ∧
      r.iterations = ("320x240,,abc,640x480").toList.count ',' + 1 ∧
      r.idx - 1 = ("320x240,,abc,640x480").toList.length :=
  scan_terminates_in_bounds (junkOf 0 0) 640 480 ("320x240,,abc,640x480").toList (by decide)

end Geoid
